import Mathlib

/-!
Verification of the `goblin987/forward` task-forwarding bot.

This file gives a shallow embedding, in Lean, of the parts of the
repository that its specification makes claims about:

* the per-task due check and status transition of
  `execute_enhanced_task` (src/enhanced_frw.py),
* the run-statistics updates of `execute_enhanced_task`,
* the primary/fallback forwarding pass of `execute_forwarding_task`,
* the per-task exception boundary and the polling batch of
  `check_enhanced_tasks`,
* the group-join operation `add_and_join_group` (src/frw.py) with its
  retry/backoff loop and its target-group store updates,
* the message-link resolver `get_message_from_link`,
* the `ORDER BY COALESCE(last_run, 0)` active-task selection,
* the semaphore-bounded fan-out of task executions, and
* the administrative bulk status updates (src/enhanced_handlers.py).

Python data is embedded as plain Lean data: nullable SQLite integer
columns become `Option Nat`, Python strings become `List Char`, and the
outcome of each network interaction (which Lean cannot perform) is an
explicit parameter of the embedded function, so that every control path
of the source is represented by some choice of parameters.
-/

namespace Forward

/-! ## Task rows and Python truthiness -/

/-- Task status column: `status ∈ {active, paused, completed, failed}`
(`tasks` table, src/frw.py schema; src/enhanced_frw.py). -/
inductive TaskStatus
  | active
  | paused
  | completed
  | failed
deriving DecidableEq, Repr

/-- The fields of a `tasks` row that the scheduler reads and writes.
Nullable integer columns are `Option Nat`. -/
structure Task where
  status : TaskStatus
  start_time : Option Nat
  end_time : Option Nat
  repetition_interval : Option Nat
  last_run : Option Nat
  total_runs : Nat
  successful_runs : Nat
  failed_runs : Nat
  updated_at : Nat
deriving DecidableEq, Repr

/-- Python truthiness of a nullable integer column: `None` and `0` are
falsy, every other integer is truthy. `execute_enhanced_task` guards its
timing checks with `if start_time and ...`, `if end_time and ...`,
`if last_run and repetition_interval`, which use exactly this notion. -/
def truthy : Option Nat → Bool
  | none => false
  | some n => n != 0

/-- Result of the due check at the head of `execute_enhanced_task`
(src/enhanced_frw.py lines 699-715). -/
inductive DueResult
  | notStarted
  | ended
  | notYetInterval
  | due
deriving DecidableEq, Repr

/-- The due check of `execute_enhanced_task`, in source order:

1. `if start_time and current_time < start_time: return` (skip);
2. `if end_time and current_time > end_time:` set `status = 'completed'`
   and skip;
3. `if last_run and repetition_interval:` and
   `current_time < last_run + repetition_interval * 60`: skip;
4. otherwise the task is due.

Returns the verdict together with the (possibly updated) task row. -/
def dueCheck (t : Task) (now : Nat) : DueResult × Task :=
  if truthy t.start_time = true ∧ now < t.start_time.getD 0 then
    (DueResult.notStarted, t)
  else if truthy t.end_time = true ∧ t.end_time.getD 0 < now then
    (DueResult.ended, { t with status := TaskStatus.completed })
  else if truthy t.last_run = true ∧ truthy t.repetition_interval = true ∧
      now < t.last_run.getD 0 + t.repetition_interval.getD 0 * 60 then
    (DueResult.notYetInterval, t)
  else
    (DueResult.due, t)

/-! ## Execution attempts and run statistics -/

/-- Outcome of one execution attempt (an invocation of
`execute_enhanced_task` that passed the due check):

* `noClient`: `get_userbot_client` returned no client;
* `forwarded success`: `execute_forwarding_task` ran and returned
  `success`, so the statistics update executed;
* `exn`: an unexpected exception reached the outer `except` of
  `execute_enhanced_task`. -/
inductive AttemptOutcome
  | noClient
  | forwarded (success : Bool)
  | exn
deriving DecidableEq, Repr

/-- The statistics update performed by `execute_enhanced_task` after the
due check (src/enhanced_frw.py lines 717-763):

* no client: `UPDATE tasks SET failed_runs = failed_runs + 1` only;
* forwarding ran: `last_run = now`, `total_runs + 1`, exactly one of
  `successful_runs + 1` / `failed_runs + 1`, `updated_at = now`;
* unexpected exception: `UPDATE tasks SET failed_runs = failed_runs + 1`
  only (the outer `except` clause). -/
def attemptEffect (t : Task) (now : Nat) : AttemptOutcome → Task
  | AttemptOutcome.noClient => { t with failed_runs := t.failed_runs + 1 }
  | AttemptOutcome.forwarded true =>
      { t with last_run := some now, total_runs := t.total_runs + 1,
               successful_runs := t.successful_runs + 1, updated_at := now }
  | AttemptOutcome.forwarded false =>
      { t with last_run := some now, total_runs := t.total_runs + 1,
               failed_runs := t.failed_runs + 1, updated_at := now }
  | AttemptOutcome.exn => { t with failed_runs := t.failed_runs + 1 }

/-- A sequence of execution attempts applied to a task (each element is
the attempt's `current_time` and its outcome). -/
def runAttempts (t : Task) : List (Nat × AttemptOutcome) → Task
  | [] => t
  | ev :: rest => runAttempts (attemptEffect t ev.1 ev.2) rest

/-- Does an attempt reach the statistics update of
`execute_enhanced_task` (i.e. neither the missing-client early return
nor the outer exception handler)? -/
def reachesStats : AttemptOutcome → Bool
  | AttemptOutcome.forwarded _ => true
  | _ => false

/-- One scheduler step on a single task: `check_enhanced_tasks` polls
only rows with `status = 'active'` (and `execute_enhanced_task` re-checks
`t.status = 'active'` when loading the row), then runs the due check and,
if due, the execution attempt. -/
def schedStep (t : Task) (ev : Nat × AttemptOutcome) : Task :=
  if t.status = TaskStatus.active then
    match dueCheck t ev.1 with
    | (DueResult.due, t2) => attemptEffect t2 ev.1 ev.2
    | (_, t2) => t2
  else t

/-- Number of `active → completed` end-time transitions performed over a
sequence of scheduler steps on one task. -/
def countCompletedTransitions (t : Task) : List (Nat × AttemptOutcome) → Nat
  | [] => 0
  | ev :: rest =>
    (if t.status = TaskStatus.active ∧ (dueCheck t ev.1).1 = DueResult.ended
     then 1 else 0) +
    countCompletedTransitions (schedStep t ev) rest

example : truthy (some 0) = false := by decide
example : truthy none = false := by decide
example : truthy (some 7) = true := by decide

/-! ## The forwarding pass of `execute_forwarding_task` -/

/-- Outcomes of the network interactions of `execute_forwarding_task`
(src/enhanced_frw.py lines 765-828), supplied as parameters:

* `connectOk`: acquiring the per-account lock and `client.start()`
  succeed (failure hits the outer `except` and returns `False`);
* `primaryResolves` / `fallbackResolves`: `get_message_from_link` plus
  `client.get_messages` on that link return a message without raising;
* `primaryForward g` / `fallbackForward g`: `client.forward_messages`
  to group `g` succeeds (a failure is caught by the inner `except` and
  the loop `continue`s with the next group). -/
structure ForwardEnv where
  connectOk : Bool
  primaryResolves : Bool
  primaryForward : Int → Bool
  fallbackResolves : Bool
  fallbackForward : Int → Bool

/-- `success_count` contributed by one forwarding loop over the target
groups: the number of targets whose forward succeeded. -/
def countForwardSuccess (fw : Int → Bool) (targets : List Int) : Nat :=
  (targets.filter fw).length

/-- `execute_forwarding_task` (src/enhanced_frw.py lines 765-828):
returns `False` when the target list is empty; otherwise attempts the
primary link (guarded by `if message_link:` — Python truthiness, here
`hasPrimary`), forwarding to each target in turn with per-target errors
swallowed; only an exception escaping the primary resolution/fetch
reaches the outer `except`, whose handler tries the fallback link
(guarded by `if fallback_message_link:`) the same way.  The result is
`success_count > 0`. -/
def executeForwardingTask (targets : List Int) (hasPrimary hasFallback : Bool)
    (env : ForwardEnv) : Bool :=
  if env.connectOk = false then false
  else if targets.isEmpty then false
  else
    let cnt : Nat :=
      if hasPrimary then
        if env.primaryResolves then countForwardSuccess env.primaryForward targets
        else
          -- primary raised before any forward: fallback block
          if hasFallback then
            if env.fallbackResolves then countForwardSuccess env.fallbackForward targets
            else 0
          else 0
      else 0
    decide (0 < cnt)

/-! ## Per-task exception boundary and the polling batch -/

/-- The raw body of one task execution: either it completes and yields
an updated task row, or it raises (`Except.error` carries the message). -/
abbrev RawExecution := Except String Task

/-- The outermost boundary of one task's execution: the `try ... except`
of `execute_enhanced_task` (src/enhanced_frw.py lines 682, 758-763).  An
exception anywhere in the body is converted into
`failed_runs = failed_runs + 1` plus a `log_event` entry; it is not
re-raised. -/
def runTaskCaught (t : Task) (body : RawExecution) : Task × List String :=
  match body with
  | Except.ok t2 => (t2, [])
  | Except.error e =>
      ({ t with failed_runs := t.failed_runs + 1 },
       ["Task Execution Error: " ++ e])

/-- One polling batch of `check_enhanced_tasks` (src/enhanced_frw.py
lines 831-861): every polled task is run through the per-task exception
boundary; `asyncio.gather(..., return_exceptions=True)` collects one
result per task. -/
def checkBatch (batch : List (Task × RawExecution)) : List (Task × List String) :=
  batch.map (fun b => runTaskCaught b.1 b.2)

/-- The polling loop (`while True` with an outer `try`): every cycle
completes and is followed by the next; a list of cycles yields one batch
result per cycle. -/
def pollLoop (cycles : List (List (Task × RawExecution))) :
    List (List (Task × List String)) :=
  cycles.map checkBatch

/-! ## Target-group store and `add_and_join_group` -/

/-- A row of the `target_groups` table
(src/frw.py schema, lines 176-183); its primary key is
`(group_id, added_by)`. -/
structure TG where
  group_id : Int
  group_name : String
  group_link : String
  added_by : String
  folder_id : Option Nat
deriving DecidableEq, Repr

/-- `SELECT group_id FROM target_groups WHERE group_id = ? AND added_by = ?`
returned a row. -/
def tgExists (store : List TG) (gid : Int) (owner : String) : Bool :=
  store.any (fun r => r.group_id == gid && r.added_by == owner)

/-- Number of rows with the given `(group_id, added_by)` key. -/
def tgCount (store : List TG) (gid : Int) (owner : String) : Nat :=
  (store.filter (fun r => r.group_id == gid && r.added_by == owner)).length

/-- SQLite `INSERT` into `target_groups`: the declared
`PRIMARY KEY (group_id, added_by)` makes an insert of a duplicate key
raise `IntegrityError` (modelled as `none`) instead of storing a second
row. -/
def tgInsert (store : List TG) (row : TG) : Option (List TG) :=
  if tgExists store row.group_id row.added_by then none
  else some (store ++ [row])

/-- The store invariant of the `target_groups` table: the
`(group_id, added_by)` key is unique. -/
def tgUnique (store : List TG) : Prop :=
  store.Pairwise (fun a b => (a.group_id, a.added_by) ≠ (b.group_id, b.added_by))

/-- The state `add_and_join_group` acts on for one `(group, owner)`
pair: whether the account is currently a member of the group
(server-side state observed via `check_membership`), and the
`target_groups` store. -/
structure JoinWorld where
  member : Bool
  store : List TG

/-- Result reported by one successfully-parsed, successfully-resolved
attempt of `add_and_join_group` (src/frw.py lines 379-401). -/
inductive JoinStoreResult
  | alreadyMember
  | joined
  | pending
deriving DecidableEq, Repr

/-- The membership/store effect of one attempt of `add_and_join_group`
(src/frw.py lines 379-401), after the reference resolved:

* already a member: insert the row only if
  `SELECT ... WHERE group_id = ? AND added_by = ?` finds none, and
  report success ("Already a member");
* not a member and the join request makes the account a member
  (re-checked via `check_membership`): insert the row (unchecked; the
  primary key raising on a duplicate is the `Option.none` case, which
  the surrounding generic `except` turns into a retry — membership has
  already been granted at that point);
* not a member and the join leaves a pending request: no store change,
  reported as not joined. -/
def joinAttempt (w : JoinWorld) (row : TG) (joinMakesMember : Bool) :
    JoinWorld × Option JoinStoreResult :=
  if w.member then
    (⟨true, if tgExists w.store row.group_id row.added_by then w.store
            else w.store ++ [row]⟩,
     some JoinStoreResult.alreadyMember)
  else if joinMakesMember then
    match tgInsert w.store row with
    | some s => (⟨true, s⟩, some JoinStoreResult.joined)
    | none => (⟨true, w.store⟩, none)
  else (⟨false, w.store⟩, some JoinStoreResult.pending)

/-! ## The retry/backoff loop of `add_and_join_group` -/

/-- What one attempt of the `for attempt in range(max_retries)` loop of
`add_and_join_group` (src/frw.py lines 360-425) runs into. -/
inductive AttemptEvent
  | success
  | floodWait (seconds : Nat)
  | channelPrivate
  | inviteExpired
  | valueError
  | unexpected
deriving DecidableEq, Repr

/-- Final result of `add_and_join_group`. -/
inductive JoinOutcome
  | ok
  | floodFail
  | permPrivate
  | permExpired
  | valueErr
  | unexpectedFail
  | addlistRejected
deriving DecidableEq, Repr

/-- The retry loop of `add_and_join_group` with `max_retries = 5` and
`base_delay = 5`, as a function of the per-attempt events.  The first
argument is the number of attempts still available (initially 5), the
second the current attempt index `attempt` (initially 0).  Returned is
the outcome together with the list of sleeps performed
(`await asyncio.sleep(wait_time)`):

* `FloodWaitError` with `attempt < max_retries - 1`: sleep
  `min(e.seconds, 60) + base_delay * 2 ** attempt` and retry; on the
  last attempt, fail;
* `ValueError`, `ChannelPrivateError`, `InviteHashExpiredError`: return
  immediately, no retry, no sleep;
* any other exception with `attempt < max_retries - 1`: sleep
  `base_delay * 2 ** attempt` and retry; on the last attempt, fail;
* an `addlist` reference (per `parse_telegram_url`) is rejected
  immediately inside the attempt body. -/
def runJoinFrom (isAddlist : Bool) (ev : Nat → AttemptEvent) :
    Nat → Nat → JoinOutcome × List Nat
  | 0, _ => (JoinOutcome.floodFail, [])
  | 1, a =>
    if isAddlist then (JoinOutcome.addlistRejected, []) else
    match ev a with
    | AttemptEvent.success => (JoinOutcome.ok, [])
    | AttemptEvent.floodWait _ => (JoinOutcome.floodFail, [])
    | AttemptEvent.channelPrivate => (JoinOutcome.permPrivate, [])
    | AttemptEvent.inviteExpired => (JoinOutcome.permExpired, [])
    | AttemptEvent.valueError => (JoinOutcome.valueErr, [])
    | AttemptEvent.unexpected => (JoinOutcome.unexpectedFail, [])
  | (r + 2), a =>
    if isAddlist then (JoinOutcome.addlistRejected, []) else
    match ev a with
    | AttemptEvent.success => (JoinOutcome.ok, [])
    | AttemptEvent.floodWait s =>
        let p := runJoinFrom isAddlist ev (r + 1) (a + 1)
        (p.1, (min s 60 + 5 * 2 ^ a) :: p.2)
    | AttemptEvent.channelPrivate => (JoinOutcome.permPrivate, [])
    | AttemptEvent.inviteExpired => (JoinOutcome.permExpired, [])
    | AttemptEvent.valueError => (JoinOutcome.valueErr, [])
    | AttemptEvent.unexpected =>
        let p := runJoinFrom isAddlist ev (r + 1) (a + 1)
        (p.1, (5 * 2 ^ a) :: p.2)

/-- `add_and_join_group`'s control skeleton: 5 attempts starting at
attempt index 0. -/
def addAndJoinRetries (isAddlist : Bool) (ev : Nat → AttemptEvent) :
    JoinOutcome × List Nat :=
  runJoinFrom isAddlist ev 5 0

/-! ## The message-link resolver `get_message_from_link` -/

/-- Python strings are embedded as lists of characters. -/
abbrev PyStr := List Char

/-- `str.split(sep)` worker: `acc` holds the characters of the current
segment in reverse. -/
def pySplitAux (sep : Char) (acc : PyStr) : PyStr → List PyStr
  | [] => [acc.reverse]
  | c :: rest =>
    if c = sep then acc.reverse :: pySplitAux sep [] rest
    else pySplitAux sep (c :: acc) rest

/-- Python `link.split('/')` (always at least one segment; splits at
every separator occurrence). -/
def pySplit (sep : Char) (s : PyStr) : List PyStr :=
  pySplitAux sep [] s

/-- Joining segments with a separator (the inverse of `pySplit`). -/
def joinSep (sep : Char) : List PyStr → PyStr
  | [] => []
  | [p] => p
  | p :: ps => p ++ sep :: joinSep sep ps

/-- The Unicode 14.0 decimal-digit (category `Nd`) code-point ranges of
the CPython 3.11 runtime the program runs under.  Within each range the
digit value is the offset modulo 10 (the mathematical block
`0x1D7CE-0x1D7FF` packs five consecutive runs of ten); these are
exactly the characters `int()` accepts as digits. -/
def decimalDigitRanges : List (Nat × Nat) :=
  [(0x30, 0x39), (0x660, 0x669), (0x6F0, 0x6F9), (0x7C0, 0x7C9),
   (0x966, 0x96F), (0x9E6, 0x9EF), (0xA66, 0xA6F), (0xAE6, 0xAEF),
   (0xB66, 0xB6F), (0xBE6, 0xBEF), (0xC66, 0xC6F), (0xCE6, 0xCEF),
   (0xD66, 0xD6F), (0xDE6, 0xDEF), (0xE50, 0xE59), (0xED0, 0xED9),
   (0xF20, 0xF29), (0x1040, 0x1049), (0x1090, 0x1099), (0x17E0, 0x17E9),
   (0x1810, 0x1819), (0x1946, 0x194F), (0x19D0, 0x19D9), (0x1A80, 0x1A89),
   (0x1A90, 0x1A99), (0x1B50, 0x1B59), (0x1BB0, 0x1BB9), (0x1C40, 0x1C49),
   (0x1C50, 0x1C59), (0xA620, 0xA629), (0xA8D0, 0xA8D9), (0xA900, 0xA909),
   (0xA9D0, 0xA9D9), (0xA9F0, 0xA9F9), (0xAA50, 0xAA59), (0xABF0, 0xABF9),
   (0xFF10, 0xFF19), (0x104A0, 0x104A9), (0x10D30, 0x10D39),
   (0x11066, 0x1106F), (0x110F0, 0x110F9), (0x11136, 0x1113F),
   (0x111D0, 0x111D9), (0x112F0, 0x112F9), (0x11450, 0x11459),
   (0x114D0, 0x114D9), (0x11650, 0x11659), (0x116C0, 0x116C9),
   (0x11730, 0x11739), (0x118E0, 0x118E9), (0x11950, 0x11959),
   (0x11C50, 0x11C59), (0x11D50, 0x11D59), (0x11DA0, 0x11DA9),
   (0x16A60, 0x16A69), (0x16AC0, 0x16AC9), (0x16B50, 0x16B59),
   (0x1D7CE, 0x1D7FF), (0x1E140, 0x1E149), (0x1E2F0, 0x1E2F9),
   (0x1E950, 0x1E959), (0x1FBF0, 0x1FBF9)]

/-- The code points Python `str.isdigit()` accepts although `int()`
rejects them (Unicode `Numeric_Type=Digit` but not `Decimal`:
superscripts, subscripts, circled digits, ...), per the same runtime. -/
def digitOnlyCodes : List Nat :=
  [0xB2, 0xB3, 0xB9, 0x1369, 0x136A, 0x136B, 0x136C, 0x136D, 0x136E, 0x136F,
   0x1370, 0x1371, 0x19DA, 0x2070, 0x2074, 0x2075, 0x2076, 0x2077, 0x2078,
   0x2079, 0x2080, 0x2081, 0x2082, 0x2083, 0x2084, 0x2085, 0x2086, 0x2087,
   0x2088, 0x2089, 0x2460, 0x2461, 0x2462, 0x2463, 0x2464, 0x2465, 0x2466,
   0x2467, 0x2468, 0x2474, 0x2475, 0x2476, 0x2477, 0x2478, 0x2479, 0x247A,
   0x247B, 0x247C, 0x2488, 0x2489, 0x248A, 0x248B, 0x248C, 0x248D, 0x248E,
   0x248F, 0x2490, 0x24EA, 0x24F5, 0x24F6, 0x24F7, 0x24F8, 0x24F9, 0x24FA,
   0x24FB, 0x24FC, 0x24FD, 0x24FF, 0x2776, 0x2777, 0x2778, 0x2779, 0x277A,
   0x277B, 0x277C, 0x277D, 0x277E, 0x2780, 0x2781, 0x2782, 0x2783, 0x2784,
   0x2785, 0x2786, 0x2787, 0x2788, 0x278A, 0x278B, 0x278C, 0x278D, 0x278E,
   0x278F, 0x2790, 0x2791, 0x2792, 0x10A40, 0x10A41, 0x10A42, 0x10A43,
   0x10E60, 0x10E61, 0x10E62, 0x10E63, 0x10E64, 0x10E65, 0x10E66, 0x10E67,
   0x10E68, 0x11052, 0x11053, 0x11054, 0x11055, 0x11056, 0x11057, 0x11058,
   0x11059, 0x1105A, 0x1F100, 0x1F101, 0x1F102, 0x1F103, 0x1F104, 0x1F105,
   0x1F106, 0x1F107, 0x1F108, 0x1F109, 0x1F10A]

/-- The decimal value `int()` assigns to a character, `none` when the
character is not a decimal digit. -/
def pyCharDecimalVal (c : Char) : Option Nat :=
  (decimalDigitRanges.find? (fun r => r.1 ≤ c.toNat && c.toNat ≤ r.2)).map
    (fun r => (c.toNat - r.1) % 10)

/-- Python `str.isdigit()` on a single character: true for decimal
digits and for the digit-only characters. -/
def pyCharIsDigit (c : Char) : Bool :=
  (pyCharDecimalVal c).isSome || digitOnlyCodes.contains c.toNat

/-- Python `str.isdigit()`: true iff the string is nonempty and every
character is a digit (decimal or digit-only — Unicode, not just
ASCII). -/
def pyIsDigit (s : PyStr) : Bool :=
  !s.isEmpty && s.all pyCharIsDigit

/-- One step of `int()`: accumulate a decimal digit, or poison the
accumulator when the character has no decimal value. -/
def pyIntStep (acc : Option Nat) (c : Char) : Option Nat :=
  match acc, pyCharDecimalVal c with
  | some n, some d => some (n * 10 + d)
  | _, _ => none

/-- Python `int()` on a string containing no sign, whitespace or
underscores (every call site guards with `isdigit()`, which admits no
such characters): `some` of the base-10 value when the string is
nonempty and all-decimal, `none` (a raised `ValueError`) otherwise —
in particular on digit-only characters such as the superscript two,
which pass `isdigit()` but fail `int()`. -/
def pyIntOfStr (s : PyStr) : Option Nat :=
  if s.isEmpty then none else s.foldl pyIntStep (some 0)

/-- The literal prefix `"https://t.me/c/"`. -/
def tmeC : PyStr := "https://t.me/c/".toList

/-- The literal prefix `"https://t.me/"`. -/
def tmeBase : PyStr := "https://t.me/".toList

/-- Result of `get_message_from_link` (src/enhanced_frw.py lines
630-645; identical in src/frw.py lines 290-305):

* `internal channel messageId`: the `https://t.me/c/...` branch with
  both `int()` calls succeeding — returns
  `PeerChannel(-1000000000000 - int(parts[4])), int(parts[5])` purely
  lexically, without any network call;
* `intError`: the same branch when `parts[4]` or `parts[5]` passes
  `isdigit()` but contains a digit-only character, so `int()` raises a
  `ValueError` that propagates uncaught (still no network call);
* `publicLookup alias messageId`: the second branch — the network
  lookup `client.get_entity(parts[3])` happens before the message id
  is computed; `messageId = some (int(parts[4]))` when `int()`
  succeeds, `none` when it raises inside the `try` (re-raised as a
  "Failed to get entity" `ValueError`);
* `invalid`: `raise ValueError("Invalid message link")`. -/
inductive LinkParse
  | internal (channel : Int) (messageId : Nat)
  | intError
  | publicLookup (aliasName : PyStr) (messageId : Option Nat)
  | invalid
deriving DecidableEq, Repr

/-- `get_message_from_link`: `parts = link.split('/')`; the first branch
fires when the link starts with `https://t.me/c/`, has exactly 6 parts
and `parts[4]`, `parts[5]` satisfy `isdigit()` — then `int()` runs on
both; the second when the link starts with `https://t.me/`, has exactly
5 parts and `parts[4]` satisfies `isdigit()`; otherwise the reference
is invalid. -/
def getMessageFromLink (link : PyStr) : LinkParse :=
  let parts := pySplit '/' link
  if tmeC.isPrefixOf link && parts.length == 6 &&
      pyIsDigit (parts.getD 4 []) && pyIsDigit (parts.getD 5 []) then
    match pyIntOfStr (parts.getD 4 []), pyIntOfStr (parts.getD 5 []) with
    | some g, some m => LinkParse.internal (-1000000000000 - (g : Int)) m
    | _, _ => LinkParse.intError
  else if tmeBase.isPrefixOf link && parts.length == 5 &&
      pyIsDigit (parts.getD 4 []) then
    LinkParse.publicLookup (parts.getD 3 []) (pyIntOfStr (parts.getD 4 []))
  else LinkParse.invalid

/-! ## Active-task selection of `check_enhanced_tasks` -/

/-- `COALESCE(last_run, 0)`, the sort key of the polling query. -/
def coalesceLastRun (t : Task) : Nat := t.last_run.getD 0

/-- The `ORDER BY COALESCE(last_run, 0) ASC` comparison. -/
def taskLE (a b : Task) : Prop := coalesceLastRun a ≤ coalesceLastRun b

instance : DecidableRel taskLE := fun _ _ => Nat.decLe _ _

instance : IsTotal Task taskLE := ⟨fun _ _ => Nat.le_total _ _⟩

instance : IsTrans Task taskLE := ⟨fun _ _ _ => Nat.le_trans⟩

/-- `SELECT id FROM tasks WHERE status = 'active' ORDER BY
COALESCE(last_run, 0) ASC` (src/enhanced_frw.py lines 835-841), over a
table given as a list of rows: keep the active rows and sort them by
the coalesced key (SQLite leaves ties in an unspecified order; any
correct sort realizes the query). -/
def selectActiveTasks (db : List Task) : List Task :=
  List.insertionSort taskLE
    (db.filter (fun t => decide (t.status = TaskStatus.active)))

/-! ## Semaphore-bounded fan-out of task executions -/

/-- Abstract state of one polling batch under
`asyncio.Semaphore(5)` (src/enhanced_frw.py lines 843-852): how many
due tasks have not started, how many are in flight (each holding one
semaphore slot from before its execution starts until it finishes,
per `async with semaphore`), and how many have finished. -/
structure SchedState where
  pending : Nat
  running : Nat
  finished : Nat
deriving DecidableEq, Repr

/-- Interleaving semantics of the batch: a pending task may start only
when fewer than `K` executions hold semaphore slots; a running task may
finish, releasing its slot. -/
inductive SchedStep (K : Nat) : SchedState → SchedState → Prop
  | start (p r d : Nat) : r < K →
      SchedStep K ⟨p + 1, r, d⟩ ⟨p, r + 1, d⟩
  | finish (p r d : Nat) :
      SchedStep K ⟨p, r + 1, d⟩ ⟨p, r, d + 1⟩

/-- States reachable from a batch of `M` due tasks, none started. -/
def SchedReachable (K M : Nat) (s : SchedState) : Prop :=
  Relation.ReflTransGen (SchedStep K) ⟨M, 0, 0⟩ s

/-! ## Administrative bulk operations (src/enhanced_handlers.py) -/

/-- `UPDATE tasks SET status = 'paused' WHERE status = 'active'`
(`handle_bulk_pause_all`, lines 240-243). -/
def bulkPauseAll (db : List Task) : List Task :=
  db.map (fun t => if t.status = TaskStatus.active
                   then { t with status := TaskStatus.paused } else t)

/-- `UPDATE tasks SET status = 'active' WHERE status = 'paused'`
(`handle_bulk_resume_all`, lines 260-263). -/
def bulkResumeAll (db : List Task) : List Task :=
  db.map (fun t => if t.status = TaskStatus.paused
                   then { t with status := TaskStatus.active } else t)

/-- `UPDATE tasks SET status = 'active' WHERE status = 'failed'`
(`handle_bulk_restart_failed`, lines 358-361). -/
def bulkRestartFailed (db : List Task) : List Task :=
  db.map (fun t => if t.status = TaskStatus.failed
                   then { t with status := TaskStatus.active } else t)

/-- `DELETE FROM tasks WHERE status = 'completed'`
(`handle_bulk_delete_completed`, lines 280-283). -/
def bulkDeleteCompleted (db : List Task) : List Task :=
  db.filter (fun t => decide (¬ t.status = TaskStatus.completed))

/-- The fields of a task row other than `status`. -/
def nonStatusFields (t : Task) :
    Option Nat × Option Nat × Option Nat × Option Nat × Nat × Nat × Nat × Nat :=
  (t.start_time, t.end_time, t.repetition_interval, t.last_run,
   t.total_runs, t.successful_runs, t.failed_runs, t.updated_at)

/-! ## Sample rows used by witnesses and counterexamples -/

/-- An active task with no timing constraints and fresh counters. -/
def freshTask : Task :=
  { status := TaskStatus.active, start_time := none, end_time := none,
    repetition_interval := none, last_run := none, total_runs := 0,
    successful_runs := 0, failed_runs := 0, updated_at := 0 }

/-- An active, never-run task whose `end_time` column holds the integer
`0` (the Unix epoch): non-NULL, so "set" in the SQL sense, but falsy in
Python. -/
def taskEndZero : Task :=
  { freshTask with end_time := some 0 }

/-- An active task whose start time is in the future. -/
def taskStartTen : Task :=
  { freshTask with start_time := some 10 }

/-! ## C1: the due check -/

/-- The four possible results of the due check. -/
theorem dueCheck_cases (t : Task) (now : Nat) :
    dueCheck t now = (DueResult.notStarted, t) ∨
    dueCheck t now = (DueResult.ended, { t with status := TaskStatus.completed }) ∨
    dueCheck t now = (DueResult.notYetInterval, t) ∨
    dueCheck t now = (DueResult.due, t) := by
  unfold dueCheck
  split
  · exact Or.inl rfl
  · split
    · exact Or.inr (Or.inl rfl)
    · split
      · exact Or.inr (Or.inr (Or.inl rfl))
      · exact Or.inr (Or.inr (Or.inr rfl))

/-- The `ended` verdict always comes with the `completed` status write. -/
theorem dueCheck_ended_status (t : Task) (now : Nat)
    (h : (dueCheck t now).1 = DueResult.ended) :
    (dueCheck t now).2.status = TaskStatus.completed := by
  rcases dueCheck_cases t now with hc | hc | hc | hc
  · rw [hc] at h; simp_all
  · rw [hc]
  · rw [hc] at h; simp_all
  · rw [hc] at h; simp_all

/-- Every verdict other than `ended` leaves the task row unchanged. -/
theorem dueCheck_not_ended_eq (t : Task) (now : Nat)
    (h : (dueCheck t now).1 ≠ DueResult.ended) :
    (dueCheck t now).2 = t := by
  rcases dueCheck_cases t now with hc | hc | hc | hc
  · rw [hc]
  · rw [hc] at h; simp_all
  · rw [hc]
  · rw [hc]

/-- The statistics update never touches the status column. -/
theorem attemptEffect_status (t : Task) (now : Nat) (o : AttemptOutcome) :
    (attemptEffect t now o).status = t.status := by
  cases o with
  | noClient => rfl
  | forwarded s => cases s <;> rfl
  | exn => rfl

/-- A non-active task is left alone by a scheduler step. -/
theorem schedStep_not_active (t : Task) (ev : Nat × AttemptOutcome)
    (h : ¬ t.status = TaskStatus.active) : schedStep t ev = t := by
  simp [schedStep, h]

/-- A completed task is never polled again, so it counts no further
`completed` transitions. -/
theorem countCompletedTransitions_completed (t : Task)
    (h : t.status = TaskStatus.completed) :
    ∀ evs, countCompletedTransitions t evs = 0 := by
  intro evs
  induction evs with
  | nil => rfl
  | cons ev rest ih =>
    have hna : ¬ t.status = TaskStatus.active := by simp [h]
    simp [countCompletedTransitions, hna, schedStep_not_active t ev hna, ih]

/-- A scheduler step whose due check hits the end-time branch leaves the
task `completed`. -/
theorem schedStep_ended (t : Task) (ev : Nat × AttemptOutcome)
    (ha : t.status = TaskStatus.active)
    (he : (dueCheck t ev.1).1 = DueResult.ended) :
    (schedStep t ev).status = TaskStatus.completed := by
  rcases dueCheck_cases t ev.1 with hc | hc | hc | hc
  · rw [hc] at he; simp at he
  · unfold schedStep; rw [if_pos ha, hc]
  · rw [hc] at he; simp at he
  · rw [hc] at he; simp at he

/-- C1 (corrected): the claim reads "set" as non-NULL, but the code's
truthiness guards treat a stored `0` like NULL.  Concretely: an active,
never-run task whose `end_time` column holds `0` is past its end at
`now = 1`, yet the due check neither skips it nor marks it completed —
it reports the task due with its status still `active`. -/
theorem due_check_zero_end_counterexample :
    taskEndZero.end_time.isSome = true ∧
    taskEndZero.end_time.getD 0 < 1 ∧
    taskEndZero.status = TaskStatus.active ∧
    dueCheck taskEndZero 1 = (DueResult.due, taskEndZero) ∧
    ¬ (dueCheck taskEndZero 1).2.status = TaskStatus.completed := by
  decide

/-- C1 (amended): with "set" meaning set to a nonzero value (the code's
truthiness guards treat a stored `0` like NULL) and the checks applied
in source order (start first, then end, then interval):

1. a task before its nonzero start time is skipped, unchanged;
2. otherwise, a task past its nonzero end time is skipped and its
   status is persisted as `completed`;
3. a task with nonzero `last_run` and nonzero interval polled before
   `last_run + interval * 60` is never reported due;
4. when none of the three conditions holds the task is due, unchanged;
5. over any sequence of scheduler steps, the `active → completed`
   end-time transition fires at most once, because only `active` tasks
   are polled and the transition makes the task non-active. -/
theorem due_check_spec :
    (∀ (t : Task) (now : Nat), truthy t.start_time = true →
      now < t.start_time.getD 0 →
      dueCheck t now = (DueResult.notStarted, t)) ∧
    (∀ (t : Task) (now : Nat),
      ¬ (truthy t.start_time = true ∧ now < t.start_time.getD 0) →
      truthy t.end_time = true → t.end_time.getD 0 < now →
      dueCheck t now =
        (DueResult.ended, { t with status := TaskStatus.completed })) ∧
    (∀ (t : Task) (now : Nat), truthy t.last_run = true →
      truthy t.repetition_interval = true →
      now < t.last_run.getD 0 + t.repetition_interval.getD 0 * 60 →
      (dueCheck t now).1 ≠ DueResult.due) ∧
    (∀ (t : Task) (now : Nat),
      ¬ (truthy t.start_time = true ∧ now < t.start_time.getD 0) →
      ¬ (truthy t.end_time = true ∧ t.end_time.getD 0 < now) →
      ¬ (truthy t.last_run = true ∧ truthy t.repetition_interval = true ∧
         now < t.last_run.getD 0 + t.repetition_interval.getD 0 * 60) →
      dueCheck t now = (DueResult.due, t)) ∧
    (∀ (t : Task) (evs : List (Nat × AttemptOutcome)),
      countCompletedTransitions t evs ≤ 1) := by
  refine ⟨?_, ?_, ?_, ?_, ?_⟩
  · intro t now h1 h2
    unfold dueCheck
    rw [if_pos ⟨h1, h2⟩]
  · intro t now hns h1 h2
    unfold dueCheck
    rw [if_neg hns, if_pos ⟨h1, h2⟩]
  · intro t now h1 h2 h3
    unfold dueCheck
    split
    · simp
    · split
      · simp
      · split
        · simp
        · next hcond => exact absurd ⟨h1, h2, h3⟩ hcond
  · intro t now h1 h2 h3
    unfold dueCheck
    rw [if_neg h1, if_neg h2, if_neg h3]
  · intro t evs
    induction evs generalizing t with
    | nil => exact Nat.zero_le 1
    | cons ev rest ih =>
      by_cases hfire : t.status = TaskStatus.active ∧
          (dueCheck t ev.1).1 = DueResult.ended
      · have hcomp := schedStep_ended t ev hfire.1 hfire.2
        have hrest := countCompletedTransitions_completed (schedStep t ev)
          hcomp rest
        simp [countCompletedTransitions, hfire, hrest]
      · have : countCompletedTransitions t (ev :: rest) =
            countCompletedTransitions (schedStep t ev) rest := by
          simp [countCompletedTransitions, hfire]
        rw [this]
        exact ih (schedStep t ev)

/-- An active task whose end time (3) has passed at `now = 5`. -/
def taskEndThree : Task := { freshTask with end_time := some 3 }

/-- Witness for C1: the end-time branch at a concrete input. -/
theorem due_check_spec_witness :
    dueCheck taskEndThree 5 =
      (DueResult.ended, { taskEndThree with status := TaskStatus.completed }) :=
  due_check_spec.2.1 taskEndThree 5 (by decide) (by decide) (by decide)

/-! ## C2: run statistics -/

/-- One attempt adds exactly one to `successful_runs + failed_runs`. -/
theorem attemptEffect_sum (t : Task) (now : Nat) (o : AttemptOutcome) :
    (attemptEffect t now o).successful_runs +
      (attemptEffect t now o).failed_runs =
    t.successful_runs + t.failed_runs + 1 := by
  cases o with
  | noClient => simp [attemptEffect]; omega
  | forwarded s => cases s <;> simp [attemptEffect] <;> omega
  | exn => simp [attemptEffect]; omega

/-- `total_runs` grows by one exactly on the attempts that reach the
statistics update. -/
theorem attemptEffect_total (t : Task) (now : Nat) (o : AttemptOutcome) :
    (attemptEffect t now o).total_runs =
      t.total_runs + (if reachesStats o then 1 else 0) := by
  cases o with
  | noClient => simp [attemptEffect, reachesStats]
  | forwarded s => cases s <;> simp [attemptEffect, reachesStats]
  | exn => simp [attemptEffect, reachesStats]

/-- C2 (corrected): the claim counts every attempt in `total_runs`, but
an attempt whose account session is unavailable takes the early-return
path that increments only `failed_runs`.  After one such attempt on a
fresh task, `total_runs` is still `0` (not `1`) and `last_run` is still
NULL, while `successful_runs + failed_runs` is `1`. -/
theorem run_counters_counterexample :
    (runAttempts freshTask [(5, AttemptOutcome.noClient)]).total_runs = 0 ∧
    ¬ (runAttempts freshTask [(5, AttemptOutcome.noClient)]).total_runs = 1 ∧
    (runAttempts freshTask [(5, AttemptOutcome.noClient)]).successful_runs +
      (runAttempts freshTask [(5, AttemptOutcome.noClient)]).failed_runs = 1 ∧
    (runAttempts freshTask [(5, AttemptOutcome.noClient)]).last_run = none := by
  decide

/-- C2 (amended): after any sequence of execution attempts,
`successful_runs + failed_runs` grows by the number of attempts, while
`total_runs` grows only by the number of attempts that reached the
statistics update (session available, no unexpected exception); such an
attempt sets `last_run` to the attempt time and bumps exactly one of
`successful_runs`/`failed_runs`; unavailable-session and
unexpected-exception attempts increment only `failed_runs`. -/
theorem run_counters_spec :
    (∀ (t : Task) (evs : List (Nat × AttemptOutcome)),
      (runAttempts t evs).successful_runs + (runAttempts t evs).failed_runs =
        t.successful_runs + t.failed_runs + evs.length) ∧
    (∀ (t : Task) (evs : List (Nat × AttemptOutcome)),
      (runAttempts t evs).total_runs =
        t.total_runs + (evs.filter (fun ev => reachesStats ev.2)).length) ∧
    (∀ (t : Task) (now : Nat) (s : Bool),
      (attemptEffect t now (AttemptOutcome.forwarded s)).total_runs =
          t.total_runs + 1 ∧
      (attemptEffect t now (AttemptOutcome.forwarded s)).last_run = some now ∧
      (attemptEffect t now (AttemptOutcome.forwarded s)).successful_runs =
          t.successful_runs + (if s then 1 else 0) ∧
      (attemptEffect t now (AttemptOutcome.forwarded s)).failed_runs =
          t.failed_runs + (if s then 0 else 1)) ∧
    (∀ (t : Task) (now : Nat) (o : AttemptOutcome), reachesStats o = false →
      attemptEffect t now o = { t with failed_runs := t.failed_runs + 1 }) := by
  refine ⟨?_, ?_, ?_, ?_⟩
  · intro t evs
    induction evs generalizing t with
    | nil => simp [runAttempts]
    | cons ev rest ih =>
      have hstep := attemptEffect_sum t ev.1 ev.2
      have := ih (attemptEffect t ev.1 ev.2)
      simp only [runAttempts, List.length_cons] at *
      omega
  · intro t evs
    induction evs generalizing t with
    | nil => simp [runAttempts]
    | cons ev rest ih =>
      have hstep := attemptEffect_total t ev.1 ev.2
      have := ih (attemptEffect t ev.1 ev.2)
      by_cases hr : reachesStats ev.2 = true
      · simp only [runAttempts, List.filter_cons, hr, if_true,
          List.length_cons] at *
        omega
      · simp only [Bool.not_eq_true] at hr
        simp only [runAttempts, List.filter_cons, hr, Bool.false_eq_true,
          if_false] at *
        omega
  · intro t now s
    cases s <;> simp [attemptEffect]
  · intro t now o h
    cases o with
    | noClient => rfl
    | forwarded s => simp [reachesStats] at h
    | exn => rfl

/-- Witness for C2: a faulty (no-session) attempt at a concrete input. -/
theorem run_counters_spec_witness :
    attemptEffect freshTask 5 AttemptOutcome.noClient =
      { freshTask with failed_runs := freshTask.failed_runs + 1 } :=
  run_counters_spec.2.2.2 freshTask 5 AttemptOutcome.noClient (by decide)

/-! ## C3: primary/fallback forwarding -/

/-- An environment where the primary link resolves but every primary
forward fails, and the fallback would resolve and forward everywhere. -/
def envPrimaryDead : ForwardEnv :=
  { connectOk := true, primaryResolves := true,
    primaryForward := fun _ => false,
    fallbackResolves := true, fallbackForward := fun _ => true }

/-- An environment where the primary link fails to resolve and the
fallback resolves and forwards everywhere. -/
def envFallbackOk : ForwardEnv :=
  { connectOk := true, primaryResolves := false,
    primaryForward := fun _ => false,
    fallbackResolves := true, fallbackForward := fun _ => true }

/-- C3 (corrected): per-target forward failures are swallowed by the
inner handler and never reach the fallback block; only an exception
from resolving/fetching the primary message does.  Concretely: with one
target, a primary that resolves but whose every forward fails, and a
fallback that would forward successfully, the execution still reports
failure — the fallback is not tried. -/
theorem fallback_counterexample :
    executeForwardingTask [1] true true envPrimaryDead = false ∧
    countForwardSuccess envPrimaryDead.fallbackForward [1] = 1 ∧
    countForwardSuccess envPrimaryDead.primaryForward [1] = 0 := by
  decide

/-- C3 (amended): the fallback pass runs exactly when the primary
reference fails to resolve (per-target forward failures do not trigger
it):

1. primary fails to resolve, fallback configured and resolving: success
   iff the fallback pass forwards to at least one target;
2. primary resolves: success iff the primary pass forwards to at least
   one target;
3. and in that case the result is independent of the fallback
   configuration;
4. primary fails to resolve and no usable fallback: failure;
5. a successful execution increments `successful_runs`, a failed one
   `failed_runs`. -/
theorem fallback_spec :
    (∀ (targets : List Int) (env : ForwardEnv),
      env.connectOk = true → ¬ targets = [] →
      env.primaryResolves = false → env.fallbackResolves = true →
      (executeForwardingTask targets true true env = true ↔
        0 < countForwardSuccess env.fallbackForward targets)) ∧
    (∀ (targets : List Int) (hf : Bool) (env : ForwardEnv),
      env.connectOk = true → ¬ targets = [] → env.primaryResolves = true →
      (executeForwardingTask targets true hf env = true ↔
        0 < countForwardSuccess env.primaryForward targets)) ∧
    (∀ (targets : List Int) (hf : Bool) (env : ForwardEnv) (fr : Bool)
        (ff : Int → Bool), env.primaryResolves = true →
      executeForwardingTask targets true hf
          { env with fallbackResolves := fr, fallbackForward := ff } =
        executeForwardingTask targets true hf env) ∧
    (∀ (targets : List Int) (hf : Bool) (env : ForwardEnv),
      env.primaryResolves = false →
      (hf = false ∨ env.fallbackResolves = false) →
      executeForwardingTask targets true hf env = false) ∧
    (∀ (t : Task) (now : Nat),
      (attemptEffect t now (AttemptOutcome.forwarded true)).successful_runs =
        t.successful_runs + 1 ∧
      (attemptEffect t now (AttemptOutcome.forwarded false)).failed_runs =
        t.failed_runs + 1) := by
  have hempty : ∀ (targets : List Int), ¬ targets = [] →
      targets.isEmpty = false := by
    intro targets h
    cases targets with
    | nil => exact absurd rfl h
    | cons a l => rfl
  refine ⟨?_, ?_, ?_, ?_, ?_⟩
  · intro targets env hc hne hpr hfr
    simp [executeForwardingTask, hc, hempty targets hne, hpr, hfr]
  · intro targets hf env hc hne hpr
    simp [executeForwardingTask, hc, hempty targets hne, hpr]
  · intro targets hf env fr ff hpr
    simp [executeForwardingTask, hpr]
  · intro targets hf env hpr hfb
    cases hc : env.connectOk with
    | false => simp [executeForwardingTask, hc]
    | true =>
      by_cases hne : targets = []
      · subst hne; simp [executeForwardingTask, hc]
      · rcases hfb with hfb | hfb <;>
          simp [executeForwardingTask, hc, hempty targets hne, hpr, hfb]
  · intro t now
    exact ⟨rfl, rfl⟩

/-- Witness for C3: fallback success at a concrete input. -/
theorem fallback_spec_witness :
    executeForwardingTask [1] true true envFallbackOk = true ↔
      0 < countForwardSuccess envFallbackOk.fallbackForward [1] :=
  fallback_spec.1 [1] envFallbackOk rfl (by decide) rfl rfl

/-! ## C4: per-task exception containment -/

/-- C4 (confirmed): an exception from one task's execution is caught at
that task's outermost boundary and becomes a `failed_runs` increment
plus a log entry (conjunct 1); a batch always produces one result per
polled task (conjunct 2); the results for the surrounding tasks are
exactly what they would be in isolation, whatever one task's body did —
including raising (conjunct 3); and the polling loop completes every
cycle, one batch result per cycle (conjunct 4). -/
theorem exception_containment_spec :
    (∀ (t : Task) (e : String),
      runTaskCaught t (Except.error e) =
        ({ t with failed_runs := t.failed_runs + 1 },
         ["Task Execution Error: " ++ e])) ∧
    (∀ (batch : List (Task × RawExecution)),
      (checkBatch batch).length = batch.length) ∧
    (∀ (pre : List (Task × RawExecution)) (x : Task × RawExecution)
        (post : List (Task × RawExecution)),
      checkBatch (pre ++ x :: post) =
        checkBatch pre ++ runTaskCaught x.1 x.2 :: checkBatch post) ∧
    (∀ (cycles : List (List (Task × RawExecution))),
      (pollLoop cycles).length = cycles.length) := by
  refine ⟨fun t e => rfl, fun batch => ?_, fun pre x post => ?_, fun cycles => ?_⟩
  · simp [checkBatch]
  · simp [checkBatch]
  · simp [pollLoop]

/-! ## C5: idempotent group join and key uniqueness -/

/-- `tgExists` is false exactly when no row has the key. -/
theorem tgExists_false_iff_count_zero (store : List TG) (gid : Int)
    (owner : String) :
    tgExists store gid owner = false ↔ tgCount store gid owner = 0 := by
  simp [tgExists, tgCount, List.any_eq_false, List.length_eq_zero,
    List.filter_eq_nil_iff]

/-- Appending a key-fresh row preserves key uniqueness. -/
theorem tgUnique_append (store : List TG) (row : TG) (h : tgUnique store)
    (hne : tgExists store row.group_id row.added_by = false) :
    tgUnique (store ++ [row]) := by
  rw [tgUnique, List.pairwise_append]
  refine ⟨h, List.pairwise_singleton _ _, ?_⟩
  intro a ha b hb
  simp only [List.mem_singleton] at hb
  intro hk
  rw [hb, Prod.mk.injEq] at hk
  have : tgExists store row.group_id row.added_by = true := by
    rw [tgExists, List.any_eq_true]
    exact ⟨a, ha, by simp [hk.1, hk.2]⟩
  rw [this] at hne
  exact Bool.noConfusion hne

/-- Appending a row adds one to the count of its own key. -/
theorem tgCount_append_self (store : List TG) (row : TG) :
    tgCount (store ++ [row]) row.group_id row.added_by =
      tgCount store row.group_id row.added_by + 1 := by
  simp [tgCount, List.filter_append]

/-- A join attempt by a current member reports "already a member". -/
theorem joinAttempt_result_of_member (w : JoinWorld) (row : TG) (jm : Bool)
    (h : w.member = true) :
    (joinAttempt w row jm).2 = some JoinStoreResult.alreadyMember := by
  simp [joinAttempt, h]

/-- A join attempt by a current member inserts the row only when no row
with the key exists. -/
theorem joinAttempt_store_of_member (w : JoinWorld) (row : TG) (jm : Bool)
    (h : w.member = true) :
    (joinAttempt w row jm).1.store =
      if tgExists w.store row.group_id row.added_by = true then w.store
      else w.store ++ [row] := by
  simp [joinAttempt, h]

/-- A successful join attempt (joined or already-member) leaves the
account a member. -/
theorem joinAttempt_member_of_success (w : JoinWorld) (row : TG) (jm : Bool)
    (h : (joinAttempt w row jm).2 = some JoinStoreResult.joined ∨
         (joinAttempt w row jm).2 = some JoinStoreResult.alreadyMember) :
    (joinAttempt w row jm).1.member = true := by
  by_cases hm : w.member
  · simp [joinAttempt, hm]
  · by_cases hj : jm = true
    · cases hins : tgInsert w.store row <;> simp [joinAttempt, hm, hj, hins]
    · simp only [Bool.not_eq_true] at hj
      simp [joinAttempt, hm, hj] at h

/-- C5 (confirmed): every join preserves the uniqueness of the
`(group_id, added_by)` key (conjunct 1); after a successful join of a
pair, a second join of the same pair reports "already a member"
(conjunct 2); and starting with no row for the pair, two calls leave
exactly one row for it (conjunct 3). -/
theorem join_idempotent_spec :
    (∀ (w : JoinWorld) (row : TG) (jm : Bool), tgUnique w.store →
      tgUnique (joinAttempt w row jm).1.store) ∧
    (∀ (w : JoinWorld) (row : TG) (jm1 jm2 : Bool),
      ((joinAttempt w row jm1).2 = some JoinStoreResult.joined ∨
       (joinAttempt w row jm1).2 = some JoinStoreResult.alreadyMember) →
      (joinAttempt (joinAttempt w row jm1).1 row jm2).2 =
        some JoinStoreResult.alreadyMember) ∧
    (∀ (w : JoinWorld) (row : TG) (jm1 jm2 : Bool),
      tgCount w.store row.group_id row.added_by = 0 →
      ((joinAttempt w row jm1).2 = some JoinStoreResult.joined ∨
       (joinAttempt w row jm1).2 = some JoinStoreResult.alreadyMember) →
      tgCount (joinAttempt (joinAttempt w row jm1).1 row jm2).1.store
        row.group_id row.added_by = 1) := by
  have hstore1 : ∀ (w : JoinWorld) (row : TG) (jm : Bool),
      tgCount w.store row.group_id row.added_by = 0 →
      ((joinAttempt w row jm).2 = some JoinStoreResult.joined ∨
       (joinAttempt w row jm).2 = some JoinStoreResult.alreadyMember) →
      (joinAttempt w row jm).1.store = w.store ++ [row] := by
    intro w row jm h0 hs
    have hne : tgExists w.store row.group_id row.added_by = false :=
      (tgExists_false_iff_count_zero _ _ _).mpr h0
    by_cases hm : w.member
    · simp [joinAttempt, hm, hne]
    · by_cases hj : jm = true
      · have hins : tgInsert w.store row = some (w.store ++ [row]) := by
          simp [tgInsert, hne]
        simp [joinAttempt, hm, hj, hins]
      · simp only [Bool.not_eq_true] at hj
        simp [joinAttempt, hm, hj] at hs
  refine ⟨?_, ?_, ?_⟩
  · intro w row jm h
    by_cases hm : w.member
    · by_cases hex : tgExists w.store row.group_id row.added_by = true
      · simpa [joinAttempt, hm, hex] using h
      · simp only [Bool.not_eq_true] at hex
        simpa [joinAttempt, hm, hex] using tgUnique_append w.store row h hex
    · by_cases hj : jm = true
      · cases hins : tgInsert w.store row with
        | none => simpa [joinAttempt, hm, hj, hins] using h
        | some s =>
          have : tgExists w.store row.group_id row.added_by = false ∧
              s = w.store ++ [row] := by
            by_cases hex : tgExists w.store row.group_id row.added_by = true
            · simp [tgInsert, hex] at hins
            · simp only [Bool.not_eq_true] at hex
              simp [tgInsert, hex] at hins
              exact ⟨hex, hins.symm⟩
          simpa [joinAttempt, hm, hj, hins, this.2] using
            tgUnique_append w.store row h this.1
      · simp only [Bool.not_eq_true] at hj
        simpa [joinAttempt, hm, hj] using h
  · intro w row jm1 jm2 h
    exact joinAttempt_result_of_member _ row jm2
      (joinAttempt_member_of_success w row jm1 h)
  · intro w row jm1 jm2 h0 hs
    have h1 := hstore1 w row jm1 h0 hs
    have hmem := joinAttempt_member_of_success w row jm1 hs
    have hc1 : tgCount (joinAttempt w row jm1).1.store row.group_id
        row.added_by = 1 := by
      rw [h1, tgCount_append_self, h0]
    have hex1 : tgExists (joinAttempt w row jm1).1.store row.group_id
        row.added_by = true := by
      by_cases hex : tgExists (joinAttempt w row jm1).1.store row.group_id
          row.added_by = true
      · exact hex
      · simp only [Bool.not_eq_true] at hex
        rw [(tgExists_false_iff_count_zero _ _ _).mp hex] at hc1
        exact absurd hc1 (by decide)
    rw [joinAttempt_store_of_member _ row jm2 hmem, if_pos hex1]
    exact hc1

/-- A sample `target_groups` row. -/
def row0 : TG :=
  { group_id := 1, group_name := "g", group_link := "l", added_by := "o",
    folder_id := none }

/-- Witness for C5: two joins of the same pair from an empty store leave
exactly one row. -/
theorem join_idempotent_spec_witness :
    tgCount (joinAttempt (joinAttempt ⟨false, []⟩ row0 true).1 row0 true).1.store
      row0.group_id row0.added_by = 1 :=
  join_idempotent_spec.2.2 ⟨false, []⟩ row0 true true (by decide)
    (Or.inl (by decide))

/-! ## C6: join retry/backoff policy -/

/-- A first attempt rate-limited with an advertised wait of 120s, then
success. -/
def floodThenOkEv : Nat → AttemptEvent :=
  fun a => if a = 0 then AttemptEvent.floodWait 120 else AttemptEvent.success

/-- C6 (corrected): the claim says the rate-limiter's advertised wait is
honored and added to the backoff, but the code adds `min(e.seconds, 60)`
— the advertised wait capped at 60 seconds.  Concretely: a flood wait
advertising 120 seconds on attempt 0 sleeps `60 + 5 = 65` seconds, not
`120 + 5 = 125`. -/
theorem join_backoff_counterexample :
    addAndJoinRetries false floodThenOkEv = (JoinOutcome.ok, [65]) ∧
    ¬ (65 : Nat) = 120 + 5 * 2 ^ 0 := by
  decide

/-- C6 (amended): rate-limited and unexpected transient attempts are
retried with exponential backoff (`base 5`, doubling per attempt) and a
hard cap of 5 attempts; a rate-limited retry additionally sleeps the
rate-limiter's advertised wait capped at 60 seconds; permanent failures
(expired private invite, access-forbidden/private channel, parse
errors) and addlist references fail immediately with no retry and no
sleep:

1. addlist references are rejected immediately;
2-4. `ChannelPrivateError`, `InviteHashExpiredError` and `ValueError`
  on the first attempt end the join at once with no sleep;
5. a rate-limited first attempt sleeps `min(advertised, 60) + 5·2⁰`
  and continues with the remaining 4 attempts;
6. five rate-limited attempts exhaust the budget: failure after
  exactly 4 backoff sleeps;
7. five unexpected-error attempts exhaust the budget: failure after
  exactly the 4 backoff sleeps 5, 10, 20, 40. -/
theorem join_retry_spec :
    (∀ (ev : Nat → AttemptEvent),
      addAndJoinRetries true ev = (JoinOutcome.addlistRejected, [])) ∧
    (∀ (ev : Nat → AttemptEvent), ev 0 = AttemptEvent.channelPrivate →
      addAndJoinRetries false ev = (JoinOutcome.permPrivate, [])) ∧
    (∀ (ev : Nat → AttemptEvent), ev 0 = AttemptEvent.inviteExpired →
      addAndJoinRetries false ev = (JoinOutcome.permExpired, [])) ∧
    (∀ (ev : Nat → AttemptEvent), ev 0 = AttemptEvent.valueError →
      addAndJoinRetries false ev = (JoinOutcome.valueErr, [])) ∧
    (∀ (ev : Nat → AttemptEvent) (s : Nat), ev 0 = AttemptEvent.floodWait s →
      addAndJoinRetries false ev =
        ((runJoinFrom false ev 4 1).1,
         (min s 60 + 5 * 2 ^ 0) :: (runJoinFrom false ev 4 1).2)) ∧
    (∀ (s : Nat → Nat),
      addAndJoinRetries false (fun a => AttemptEvent.floodWait (s a)) =
        (JoinOutcome.floodFail,
         [min (s 0) 60 + 5 * 2 ^ 0, min (s 1) 60 + 5 * 2 ^ 1,
          min (s 2) 60 + 5 * 2 ^ 2, min (s 3) 60 + 5 * 2 ^ 3])) ∧
    (addAndJoinRetries false (fun _ => AttemptEvent.unexpected) =
      (JoinOutcome.unexpectedFail, [5 * 2 ^ 0, 5 * 2 ^ 1, 5 * 2 ^ 2,
        5 * 2 ^ 3])) := by
  refine ⟨?_, ?_, ?_, ?_, ?_, ?_, ?_⟩
  · intro ev; rfl
  · intro ev h; simp [addAndJoinRetries, runJoinFrom, h]
  · intro ev h; simp [addAndJoinRetries, runJoinFrom, h]
  · intro ev h; simp [addAndJoinRetries, runJoinFrom, h]
  · intro ev s h
    show runJoinFrom false ev 5 0 = _
    conv_lhs => rw [runJoinFrom]
    simp [h]
  · intro s; rfl
  · rfl

/-- Witness for C6: a permanent (private-channel) failure at a concrete
input. -/
theorem join_retry_spec_witness :
    addAndJoinRetries false (fun _ => AttemptEvent.channelPrivate) =
      (JoinOutcome.permPrivate, []) :=
  join_retry_spec.2.1 (fun _ => AttemptEvent.channelPrivate) rfl

/-! ## C7: split/join infrastructure -/

/-- `split` always yields at least one segment. -/
theorem pySplitAux_ne_nil (sep : Char) (acc s : PyStr) :
    pySplitAux sep acc s ≠ [] := by
  induction s generalizing acc with
  | nil => simp [pySplitAux]
  | cons c rest ih =>
    by_cases hc : c = sep
    · simp [pySplitAux, hc]
    · simp only [pySplitAux, if_neg hc]
      exact ih (c :: acc)

/-- Joining the segments of a split recovers the string. -/
theorem joinSep_pySplitAux (sep : Char) (s : PyStr) :
    ∀ acc, joinSep sep (pySplitAux sep acc s) = acc.reverse ++ s := by
  induction s with
  | nil => intro acc; simp [pySplitAux, joinSep]
  | cons c rest ih =>
    intro acc
    by_cases hc : c = sep
    · rw [show pySplitAux sep acc (c :: rest) =
          acc.reverse :: pySplitAux sep [] rest by simp [pySplitAux, hc]]
      cases hq : pySplitAux sep [] rest with
      | nil => exact absurd hq (pySplitAux_ne_nil sep [] rest)
      | cons q qs =>
        have hrest := ih []
        rw [hq] at hrest
        simp only [List.reverse_nil, List.nil_append] at hrest
        simp [joinSep, hrest, hc]
    · rw [show pySplitAux sep acc (c :: rest) =
          pySplitAux sep (c :: acc) rest by simp [pySplitAux, hc]]
      rw [ih (c :: acc)]
      simp

/-- No segment of a split contains the separator. -/
theorem pySplitAux_no_sep (sep : Char) (s : PyStr) :
    ∀ acc, sep ∉ acc → ∀ p ∈ pySplitAux sep acc s, sep ∉ p := by
  induction s with
  | nil =>
    intro acc hacc p hp
    simp only [pySplitAux, List.mem_singleton] at hp
    subst hp
    simpa [List.mem_reverse] using hacc
  | cons c rest ih =>
    intro acc hacc p hp
    by_cases hc : c = sep
    · rw [show pySplitAux sep acc (c :: rest) =
          acc.reverse :: pySplitAux sep [] rest by simp [pySplitAux, hc]] at hp
      rcases List.mem_cons.mp hp with rfl | hp2
      · simpa [List.mem_reverse] using hacc
      · exact ih [] (by simp) p hp2
    · rw [show pySplitAux sep acc (c :: rest) =
          pySplitAux sep (c :: acc) rest by simp [pySplitAux, hc]] at hp
      refine ih (c :: acc) ?_ p hp
      intro hm
      rcases List.mem_cons.mp hm with h1 | h1
      · exact hc h1.symm
      · exact hacc h1

/-- Splitting past a separator-free chunk just accumulates it. -/
theorem pySplitAux_append (sep : Char) :
    ∀ (p acc s : PyStr), sep ∉ p →
      pySplitAux sep acc (p ++ s) = pySplitAux sep (p.reverse ++ acc) s := by
  intro p
  induction p with
  | nil => intro acc s _; simp
  | cons c p2 ih =>
    intro acc s hp
    have hc : ¬ c = sep := by
      intro h
      exact hp (by rw [h]; exact List.mem_cons_self _ _)
    rw [List.cons_append,
      show pySplitAux sep acc (c :: (p2 ++ s)) =
        pySplitAux sep (c :: acc) (p2 ++ s) by simp [pySplitAux, hc],
      ih (c :: acc) s (fun h => hp (List.mem_cons_of_mem _ h))]
    simp

/-- Splitting a join of separator-free segments recovers the segments. -/
theorem pySplit_joinSep (sep : Char) :
    ∀ parts : List PyStr, parts ≠ [] → (∀ p ∈ parts, sep ∉ p) →
      pySplit sep (joinSep sep parts) = parts := by
  intro parts
  induction parts with
  | nil => intro h _; exact absurd rfl h
  | cons p ps ih =>
    intro _ hall
    have hp : sep ∉ p := hall p (List.mem_cons_self _ _)
    cases ps with
    | nil =>
      show pySplitAux sep [] (joinSep sep [p]) = [p]
      rw [show joinSep sep [p] = p from rfl,
        show p = p ++ ([] : PyStr) by simp,
        pySplitAux_append sep p [] [] (by simpa using hp)]
      simp [pySplitAux]
    | cons q qs =>
      have hall2 : ∀ r ∈ q :: qs, sep ∉ r :=
        fun r hr => hall r (List.mem_cons_of_mem _ hr)
      show pySplitAux sep [] (joinSep sep (p :: q :: qs)) = _
      rw [show joinSep sep (p :: q :: qs) = p ++ sep :: joinSep sep (q :: qs)
          from rfl,
        pySplitAux_append sep p [] _ hp,
        show pySplitAux sep (p.reverse ++ []) (sep :: joinSep sep (q :: qs)) =
          (p.reverse ++ []).reverse :: pySplitAux sep [] (joinSep sep (q :: qs))
          by simp [pySplitAux]]
      have := ih (by simp) hall2
      rw [pySplit] at this
      rw [this]
      simp

/-- Two decompositions around a first separator agree. -/
theorem seg_peel (sep : Char) :
    ∀ (x y u v : PyStr), sep ∉ x → sep ∉ y →
      x ++ sep :: u = y ++ sep :: v → x = y ∧ u = v := by
  intro x
  induction x with
  | nil =>
    intro y u v _ hy h
    cases y with
    | nil =>
      simp only [List.nil_append] at h
      exact ⟨rfl, (List.cons.inj h).2⟩
    | cons d ys =>
      rw [List.nil_append, List.cons_append] at h
      have h1 := (List.cons.inj h).1
      exact absurd (by rw [h1]; exact List.mem_cons_self d ys) hy
  | cons c xs ih =>
    intro y u v hx hy h
    cases y with
    | nil =>
      rw [List.nil_append, List.cons_append] at h
      have h1 := (List.cons.inj h).1
      exact absurd (by rw [← h1]; exact List.mem_cons_self c xs) hx
    | cons d ys =>
      rw [List.cons_append, List.cons_append] at h
      have h1 := (List.cons.inj h).1
      have h2 := (List.cons.inj h).2
      have hxs : sep ∉ xs := fun hm => hx (List.mem_cons_of_mem _ hm)
      have hys : sep ∉ ys := fun hm => hy (List.mem_cons_of_mem _ hm)
      obtain ⟨e1, e2⟩ := ih ys u v hxs hys h2
      exact ⟨by rw [h1, e1], e2⟩

/-- A digit string contains no slash. -/
theorem pyIsDigit_no_slash (s : PyStr) (h : pyIsDigit s = true) : '/' ∉ s := by
  intro hm
  rw [pyIsDigit, Bool.and_eq_true] at h
  have hd := List.all_eq_true.mp h.2 '/' hm
  exact absurd hd (by decide)

/-- A list prefix in `isPrefixOf` form. -/
theorem isPrefixOf_append_self (l r : PyStr) : l.isPrefixOf (l ++ r) = true := by
  rw [List.isPrefixOf_iff_prefix]
  exact List.prefix_append l r

/-- Folding `int()` from a poisoned accumulator stays poisoned. -/
theorem foldl_pyIntStep_none (s : PyStr) :
    List.foldl pyIntStep none s = none := by
  induction s with
  | nil => rfl
  | cons c rest ih =>
    have hstep : pyIntStep none c = none := by
      cases hd : pyCharDecimalVal c <;> simp [pyIntStep, hd]
    simpa [hstep] using ih

/-- A successful `int()` step consumed a decimal digit. -/
theorem pyIntStep_some_decimal (acc : Option Nat) (c : Char) (x : Nat)
    (h : pyIntStep acc c = some x) : (pyCharDecimalVal c).isSome = true := by
  cases hd : pyCharDecimalVal c with
  | none => cases acc <;> simp [pyIntStep, hd] at h
  | some d => rfl

/-- A successful `int()` fold saw only decimal digits. -/
theorem foldl_pyIntStep_decimal (s : PyStr) :
    ∀ (acc : Option Nat) (n : Nat), List.foldl pyIntStep acc s = some n →
      ∀ c ∈ s, (pyCharDecimalVal c).isSome = true := by
  induction s with
  | nil => intro acc n _ c hc; exact absurd hc (List.not_mem_nil c)
  | cons c0 rest ih =>
    intro acc n h c hc
    rw [List.foldl_cons] at h
    cases hstep : pyIntStep acc c0 with
    | none =>
      rw [hstep, foldl_pyIntStep_none] at h
      exact absurd h (by simp)
    | some x =>
      rcases List.mem_cons.mp hc with rfl | hc2
      · exact pyIntStep_some_decimal acc c x hstep
      · rw [hstep] at h
        exact ih (some x) n h c hc2

/-- A string `int()` accepts also satisfies `isdigit()` (decimal digits
are digits). -/
theorem pyIntOfStr_isdigit (s : PyStr) (n : Nat)
    (h : pyIntOfStr s = some n) : pyIsDigit s = true := by
  rw [pyIntOfStr] at h
  split at h
  · exact absurd h (by simp)
  · next hne =>
    rw [pyIsDigit, Bool.and_eq_true]
    refine ⟨by simpa using hne, ?_⟩
    rw [List.all_eq_true]
    intro c hc
    have hd := foldl_pyIntStep_decimal s (some 0) n h c hc
    rw [pyCharIsDigit, Bool.or_eq_true]
    exact Or.inl hd

/-- A six-segment split whose string starts with `https://t.me/c/` puts
the whole remainder into the last two segments. -/
theorem pySplit_six_shape (link p0 p1 p2 p3 p4 p5 : PyStr)
    (hps : pySplit '/' link = [p0, p1, p2, p3, p4, p5])
    (hpre : tmeC.isPrefixOf link = true) :
    link = tmeC ++ p4 ++ '/' :: p5 := by
  have hjoin : joinSep '/' (pySplit '/' link) = link := by
    simpa [pySplit] using joinSep_pySplitAux '/' link []
  have hnosep : ∀ p ∈ pySplit '/' link, '/' ∉ p :=
    pySplitAux_no_sep '/' link [] (by simp)
  rw [hps] at hjoin hnosep
  simp only [joinSep] at hjoin
  obtain ⟨rest0, hrest0⟩ := List.isPrefixOf_iff_prefix.mp hpre
  have hns0 : '/' ∉ p0 := hnosep p0 (by simp)
  have hns1 : '/' ∉ p1 := hnosep p1 (by simp)
  have hns2 : '/' ∉ p2 := hnosep p2 (by simp)
  have hns3 : '/' ∉ p3 := hnosep p3 (by simp)
  have hshape : tmeC ++ rest0 =
      "https:".toList ++ '/' :: ([] ++ '/' :: ("t.me".toList ++ '/' ::
        ("c".toList ++ '/' :: rest0))) := rfl
  have heq := hjoin.trans (hrest0.symm.trans hshape)
  obtain ⟨e0, t1⟩ := seg_peel '/' p0 "https:".toList _ _ hns0 (by decide) heq
  obtain ⟨e1, t2⟩ := seg_peel '/' p1 [] _ _ hns1 (by decide) t1
  obtain ⟨e2, t3⟩ := seg_peel '/' p2 "t.me".toList _ _ hns2 (by decide) t2
  obtain ⟨e3, t4⟩ := seg_peel '/' p3 "c".toList _ _ hns3 (by decide) t3
  rw [List.append_assoc, t4]
  exact hrest0.symm

/-- A five-segment split whose string starts with `https://t.me/` puts
the whole remainder into the last two segments, the first of which is
slash-free. -/
theorem pySplit_five_shape (link p0 p1 p2 p3 p4 : PyStr)
    (hps : pySplit '/' link = [p0, p1, p2, p3, p4])
    (hpre : tmeBase.isPrefixOf link = true) :
    '/' ∉ p3 ∧ link = tmeBase ++ p3 ++ '/' :: p4 := by
  have hjoin : joinSep '/' (pySplit '/' link) = link := by
    simpa [pySplit] using joinSep_pySplitAux '/' link []
  have hnosep : ∀ p ∈ pySplit '/' link, '/' ∉ p :=
    pySplitAux_no_sep '/' link [] (by simp)
  rw [hps] at hjoin hnosep
  simp only [joinSep] at hjoin
  obtain ⟨rest0, hrest0⟩ := List.isPrefixOf_iff_prefix.mp hpre
  have hns0 : '/' ∉ p0 := hnosep p0 (by simp)
  have hns1 : '/' ∉ p1 := hnosep p1 (by simp)
  have hns2 : '/' ∉ p2 := hnosep p2 (by simp)
  have hns3 : '/' ∉ p3 := hnosep p3 (by simp)
  have hshape : tmeBase ++ rest0 =
      "https:".toList ++ '/' :: ([] ++ '/' ::
        ("t.me".toList ++ '/' :: rest0)) := rfl
  have heq := hjoin.trans (hrest0.symm.trans hshape)
  obtain ⟨e0, t1⟩ := seg_peel '/' p0 "https:".toList _ _ hns0 (by decide) heq
  obtain ⟨e1, t2⟩ := seg_peel '/' p1 [] _ _ hns1 (by decide) t1
  obtain ⟨e2, t3⟩ := seg_peel '/' p2 "t.me".toList _ _ hns2 (by decide) t2
  refine ⟨hns3, ?_⟩
  rw [List.append_assoc, t3]
  exact hrest0.symm

/-- Inversion of a successful internal-form parse: only strings of the
exact shape `https://t.me/c/<decimal digits>/<decimal digits>` produce
an `internal` result, with the numbers `int()` computes from them. -/
theorem getMessageFromLink_internal_inv (link : PyStr) (c : Int) (m : Nat)
    (h : getMessageFromLink link = LinkParse.internal c m) :
    ∃ (a b : PyStr) (ga : Nat), pyIntOfStr a = some ga ∧
      pyIntOfStr b = some m ∧ link = tmeC ++ a ++ '/' :: b ∧
      c = -1000000000000 - (ga : Int) := by
  simp only [getMessageFromLink] at h
  split at h
  case isTrue hcond =>
    simp only [Bool.and_eq_true, beq_iff_eq] at hcond
    obtain ⟨⟨⟨hpre, hlen⟩, h4⟩, h5⟩ := hcond
    rcases hps : pySplit '/' link with
      _ | ⟨p0, _ | ⟨p1, _ | ⟨p2, _ | ⟨p3, _ | ⟨p4, _ | ⟨p5, rest⟩⟩⟩⟩⟩⟩ <;>
      rw [hps] at hlen <;> simp only [List.length_cons, List.length_nil] at hlen
    · exact absurd hlen (by omega)
    · exact absurd hlen (by omega)
    · exact absurd hlen (by omega)
    · exact absurd hlen (by omega)
    · exact absurd hlen (by omega)
    · exact absurd hlen (by omega)
    · have hrest : rest = [] := by
        rw [List.length_eq_zero.symm]; omega
      subst hrest
      rw [hps] at h
      simp only [List.getD_cons_succ, List.getD_cons_zero] at h
      cases hg : pyIntOfStr p4 with
      | none =>
        rw [hg] at h
        exact absurd h (by cases pyIntOfStr p5 <;> simp)
      | some g =>
        cases hm2 : pyIntOfStr p5 with
        | none =>
          rw [hg, hm2] at h
          exact absurd h (by simp)
        | some m2 =>
          rw [hg, hm2] at h
          simp only at h
          injection h with hc hm3
          rw [hm3] at hm2
          exact ⟨p4, p5, g, hg, hm2,
            pySplit_six_shape link p0 p1 p2 p3 p4 p5 hps hpre, hc.symm⟩
  case isFalse hcond =>
    split at h
    · exact absurd h (by simp)
    · exact absurd h (by simp)

/-- Inversion of the internal branch's `int()` failure: `intError`
arises only from strings `https://t.me/c/<digits>/<digits>` whose
`isdigit()`-true segments contain a digit-only (non-decimal) character,
so `int()` raises — still with no network call. -/
theorem getMessageFromLink_intError_inv (link : PyStr)
    (h : getMessageFromLink link = LinkParse.intError) :
    ∃ a b : PyStr, pyIsDigit a = true ∧ pyIsDigit b = true ∧
      (pyIntOfStr a = none ∨ pyIntOfStr b = none) ∧
      link = tmeC ++ a ++ '/' :: b := by
  simp only [getMessageFromLink] at h
  split at h
  case isTrue hcond =>
    simp only [Bool.and_eq_true, beq_iff_eq] at hcond
    obtain ⟨⟨⟨hpre, hlen⟩, h4⟩, h5⟩ := hcond
    rcases hps : pySplit '/' link with
      _ | ⟨p0, _ | ⟨p1, _ | ⟨p2, _ | ⟨p3, _ | ⟨p4, _ | ⟨p5, rest⟩⟩⟩⟩⟩⟩ <;>
      rw [hps] at hlen <;> simp only [List.length_cons, List.length_nil] at hlen
    · exact absurd hlen (by omega)
    · exact absurd hlen (by omega)
    · exact absurd hlen (by omega)
    · exact absurd hlen (by omega)
    · exact absurd hlen (by omega)
    · exact absurd hlen (by omega)
    · have hrest : rest = [] := by
        rw [List.length_eq_zero.symm]; omega
      subst hrest
      rw [hps] at h h4 h5
      simp only [List.getD_cons_succ, List.getD_cons_zero] at h h4 h5
      have hshape := pySplit_six_shape link p0 p1 p2 p3 p4 p5 hps hpre
      cases hg : pyIntOfStr p4 with
      | none => exact ⟨p4, p5, h4, h5, Or.inl hg, hshape⟩
      | some g =>
        cases hm2 : pyIntOfStr p5 with
        | none => exact ⟨p4, p5, h4, h5, Or.inr hm2, hshape⟩
        | some m2 =>
          rw [hg, hm2] at h
          exact absurd h (by simp)
  case isFalse hcond =>
    split at h
    · exact absurd h (by simp)
    · exact absurd h (by simp)

/-- Inversion of the public-alias branch: a `publicLookup` result — a
network lookup of the alias, successful or not — arises only from
strings of the exact shape `https://t.me/<alias>/<digits>` with a
slash-free alias and an `isdigit()`-true last segment, and its message
id is exactly `int()` of that segment. -/
theorem getMessageFromLink_public_inv (link al : PyStr) (mid : Option Nat)
    (h : getMessageFromLink link = LinkParse.publicLookup al mid) :
    ∃ b : PyStr, '/' ∉ al ∧ pyIsDigit b = true ∧ mid = pyIntOfStr b ∧
      link = tmeBase ++ al ++ '/' :: b := by
  simp only [getMessageFromLink] at h
  split at h
  · split at h <;> simp at h
  · split at h
    case isTrue hcond =>
      simp only [Bool.and_eq_true, beq_iff_eq] at hcond
      obtain ⟨⟨hpre, hlen⟩, h4⟩ := hcond
      rcases hps : pySplit '/' link with
        _ | ⟨p0, _ | ⟨p1, _ | ⟨p2, _ | ⟨p3, _ | ⟨p4, rest⟩⟩⟩⟩⟩ <;>
        rw [hps] at hlen <;>
        simp only [List.length_cons, List.length_nil] at hlen
      · exact absurd hlen (by omega)
      · exact absurd hlen (by omega)
      · exact absurd hlen (by omega)
      · exact absurd hlen (by omega)
      · exact absurd hlen (by omega)
      · have hrest : rest = [] := by
          rw [List.length_eq_zero.symm]; omega
        subst hrest
        rw [hps] at h h4
        simp only [List.getD_cons_succ, List.getD_cons_zero] at h h4
        obtain ⟨hns3, hlink⟩ :=
          pySplit_five_shape link p0 p1 p2 p3 p4 hps hpre
        injection h with hal hmid
        refine ⟨p4, ?_, h4, hmid.symm, ?_⟩
        · rw [← hal]; exact hns3
        · rw [← hal]; exact hlink
    case isFalse =>
      exact absurd h (by simp)

/-! ## C7: the resolver's two recognized forms -/

/-- C7 (confirmed): the resolver recognizes exactly two forms, with
Python's full Unicode digit semantics.

1. `https://t.me/c/<digits>/<digits>` with both segments accepted by
  `int()` (nonempty, Unicode decimal digits) resolves purely lexically
  — the `internal` result involves no network interaction — to the
  channel handle `-1000000000000 - <channel digits>` and the message
  id;
2. `https://t.me/<alias>/<digits>` (alias slash-free, digits accepted
  by `int()`) yields a `publicLookup` with the message id — i.e. the
  network entity lookup is required before the (chat, message id) pair
  is available;
3. every `internal` result arises from a string of form (1), with the
  numbers `int()` computes;
4. every `intError` result (a `ValueError` raised by `int()`, no
  network call) arises from an internal-shaped string whose
  `isdigit()`-true segments are not all decimal;
5. every `publicLookup` result — lookup-requiring, successful or not —
  arises from a string of form (2) up to the decimality of its digits;
  consequently every string matching neither form fails with the
  invalid-reference error. -/
theorem link_resolver_spec :
    (∀ (a b : PyStr) (ga mb : Nat), pyIntOfStr a = some ga →
      pyIntOfStr b = some mb →
      getMessageFromLink (tmeC ++ a ++ '/' :: b) =
        LinkParse.internal (-1000000000000 - (ga : Int)) mb) ∧
    (∀ (al b : PyStr) (mb : Nat), '/' ∉ al → pyIntOfStr b = some mb →
      getMessageFromLink (tmeBase ++ al ++ '/' :: b) =
        LinkParse.publicLookup al (some mb)) ∧
    (∀ (link : PyStr) (c : Int) (m : Nat),
      getMessageFromLink link = LinkParse.internal c m →
      ∃ (a b : PyStr) (ga : Nat), pyIntOfStr a = some ga ∧
        pyIntOfStr b = some m ∧ link = tmeC ++ a ++ '/' :: b ∧
        c = -1000000000000 - (ga : Int)) ∧
    (∀ link : PyStr, getMessageFromLink link = LinkParse.intError →
      ∃ a b : PyStr, pyIsDigit a = true ∧ pyIsDigit b = true ∧
        (pyIntOfStr a = none ∨ pyIntOfStr b = none) ∧
        link = tmeC ++ a ++ '/' :: b) ∧
    (∀ (link al : PyStr) (mid : Option Nat),
      getMessageFromLink link = LinkParse.publicLookup al mid →
      ∃ b : PyStr, '/' ∉ al ∧ pyIsDigit b = true ∧ mid = pyIntOfStr b ∧
        link = tmeBase ++ al ++ '/' :: b) := by
  refine ⟨?_, ?_, getMessageFromLink_internal_inv,
    getMessageFromLink_intError_inv, getMessageFromLink_public_inv⟩
  · intro a b ga mb hga hmb
    have ha := pyIntOfStr_isdigit a ga hga
    have hb := pyIntOfStr_isdigit b mb hmb
    have hsplit : pySplit '/' (tmeC ++ a ++ '/' :: b) =
        ["https:".toList, [], "t.me".toList, "c".toList, a, b] := by
      have hform : tmeC ++ a ++ '/' :: b =
          joinSep '/' ["https:".toList, [], "t.me".toList, "c".toList,
            a, b] := rfl
      rw [hform]
      refine pySplit_joinSep '/' _ (by simp) ?_
      intro p hp
      simp only [List.mem_cons, List.not_mem_nil, or_false] at hp
      rcases hp with rfl | rfl | rfl | rfl | rfl | rfl
      · decide
      · decide
      · decide
      · decide
      · exact pyIsDigit_no_slash _ ha
      · exact pyIsDigit_no_slash _ hb
    have hpre : tmeC.isPrefixOf (tmeC ++ a ++ '/' :: b) = true := by
      rw [show tmeC ++ a ++ '/' :: b = tmeC ++ (a ++ '/' :: b) by simp]
      exact isPrefixOf_append_self _ _
    simp only [getMessageFromLink, hsplit]
    simp [hpre, ha, hb, hga, hmb]
  · intro al b mb hal hmb
    have hb := pyIntOfStr_isdigit b mb hmb
    have hsplit : pySplit '/' (tmeBase ++ al ++ '/' :: b) =
        ["https:".toList, [], "t.me".toList, al, b] := by
      have hform : tmeBase ++ al ++ '/' :: b =
          joinSep '/' ["https:".toList, [], "t.me".toList, al, b] := rfl
      rw [hform]
      refine pySplit_joinSep '/' _ (by simp) ?_
      intro p hp
      simp only [List.mem_cons, List.not_mem_nil, or_false] at hp
      rcases hp with rfl | rfl | rfl | rfl | rfl
      · decide
      · decide
      · decide
      · exact hal
      · exact pyIsDigit_no_slash _ hb
    have hpre : tmeBase.isPrefixOf (tmeBase ++ al ++ '/' :: b) = true := by
      rw [show tmeBase ++ al ++ '/' :: b = tmeBase ++ (al ++ '/' :: b) by simp]
      exact isPrefixOf_append_self _ _
    simp only [getMessageFromLink, hsplit]
    simp [hpre, hb, hmb]

/-- Witness for C7: the internal form at a concrete input. -/
theorem link_resolver_spec_witness :
    getMessageFromLink (tmeC ++ "123".toList ++ '/' :: "45".toList) =
      LinkParse.internal (-1000000000000 - ((123 : Nat) : Int)) 45 :=
  link_resolver_spec.1 "123".toList "45".toList 123 45 (by decide) (by decide)

example : getMessageFromLink "https://t.me/c/١٢٣/٤".toList =
    LinkParse.internal (-1000000000123) 4 := by decide

example : pyIsDigit "²".toList = true ∧ pyIntOfStr "²".toList = none := by
  decide

example : getMessageFromLink "https://t.me/c/²/3".toList =
    LinkParse.intError := by decide

example : getMessageFromLink "https://t.me/user/٤".toList =
    LinkParse.publicLookup "user".toList (some 4) := by decide

example : getMessageFromLink "https://t.me/user/²".toList =
    LinkParse.publicLookup "user".toList none := by decide

example : getMessageFromLink "https://t.me/user/x1".toList =
    LinkParse.invalid := by decide

/-! ## C8: active-task selection and ordering -/

/-- C8 (confirmed): the polling query selects exactly the `active` rows
(conjuncts 1 and 2), ordered ascending by `COALESCE(last_run, 0)`
(conjunct 3); since every stored `last_run` is a positive Unix
timestamp (it is only ever written from the current clock), never-run
rows (NULL, coalesced to 0) come before every row that has run: no
never-run row follows a has-run row (conjunct 4). -/
theorem active_selection_spec :
    (∀ db : List Task,
      List.Perm (selectActiveTasks db)
        (db.filter (fun t => decide (t.status = TaskStatus.active)))) ∧
    (∀ (db : List Task) (t : Task),
      t ∈ selectActiveTasks db ↔ t ∈ db ∧ t.status = TaskStatus.active) ∧
    (∀ db : List Task, (selectActiveTasks db).Sorted taskLE) ∧
    (∀ db : List Task, (∀ t ∈ db, ∀ v : Nat, t.last_run = some v → 0 < v) →
      ∀ (i j : Fin (selectActiveTasks db).length), i < j →
        ((selectActiveTasks db).get j).last_run = none →
        ((selectActiveTasks db).get i).last_run = none) := by
  refine ⟨?_, ?_, ?_, ?_⟩
  · intro db
    exact List.perm_insertionSort taskLE _
  · intro db t
    simp [selectActiveTasks, List.mem_filter]
  · intro db
    exact List.sorted_insertionSort taskLE _
  · intro db hpos i j hij hj
    have hsorted : (selectActiveTasks db).Sorted taskLE :=
      List.sorted_insertionSort taskLE _
    have hrel := List.Sorted.rel_get_of_lt hsorted hij
    have hkeyj : coalesceLastRun ((selectActiveTasks db).get j) = 0 := by
      unfold coalesceLastRun
      rw [hj]
      rfl
    have hkeyi : coalesceLastRun ((selectActiveTasks db).get i) = 0 := by
      rw [taskLE, hkeyj] at hrel
      omega
    cases hlr : ((selectActiveTasks db).get i).last_run with
    | none => rfl
    | some v =>
      have hmem : (selectActiveTasks db).get i ∈ selectActiveTasks db :=
        List.get_mem _ _ _
      have hmemdb : (selectActiveTasks db).get i ∈ db := by
        have := (List.mem_filter.mp
          ((List.perm_insertionSort taskLE _).mem_iff.mp hmem)).1
        exact this
      have hv := hpos _ hmemdb v hlr
      rw [coalesceLastRun, hlr] at hkeyi
      simp at hkeyi
      omega

/-- Witness for C8: with two active never-run tasks, the earlier element
of the ordered selection is never-run. -/
theorem active_selection_spec_witness :
    ((selectActiveTasks [freshTask, freshTask]).get ⟨0, by decide⟩).last_run =
      none :=
  active_selection_spec.2.2.2 [freshTask, freshTask]
    (by
      intro t ht v hv
      rcases List.mem_cons.mp ht with rfl | ht2
      · exact absurd hv (by simp [freshTask])
      · rcases List.mem_cons.mp ht2 with rfl | ht3
        · exact absurd hv (by simp [freshTask])
        · exact absurd ht3 (List.not_mem_nil t))
    ⟨0, by decide⟩ ⟨1, by decide⟩ (by decide) (by decide)

/-! ## C9: semaphore concurrency bound -/

/-- C9 (confirmed): in the interleaving semantics of the batch runner —
where each task execution holds one slot of `asyncio.Semaphore(K)` for
its full duration — every state reachable from `M` due tasks has at
most `K` executions in flight; in particular at the code's `K = 5` and
any `M`. -/
theorem concurrency_bound_spec :
    (∀ (K M : Nat) (s : SchedState), SchedReachable K M s → s.running ≤ K) ∧
    (∀ (M : Nat) (s : SchedState), SchedReachable 5 M s → s.running ≤ 5) := by
  have main : ∀ (K M : Nat) (s : SchedState), SchedReachable K M s →
      s.running ≤ K := by
    intro K M s h
    induction h with
    | refl => exact Nat.zero_le K
    | tail hsteps hstep ih =>
      cases hstep with
      | start p r d hr => exact hr
      | finish p r d => exact Nat.le_of_succ_le ih
  exact ⟨main, fun M s h => main 5 M s h⟩

/-- Witness for C9: from a batch of 7 due tasks, after starting one
execution, one slot is held — within the bound of 5. -/
theorem concurrency_bound_spec_witness :
    (SchedState.mk 6 1 0).running ≤ 5 :=
  concurrency_bound_spec.2 7 ⟨6, 1, 0⟩
    (Relation.ReflTransGen.single (SchedStep.start 6 0 0 (by decide)))

/-! ## C10: administrative bulk operations -/

/-- A completed task row, used as the out-of-range default for indexed
access; it is a fixed point of all three bulk updates. -/
def taskDone : Task := { freshTask with status := TaskStatus.completed }

/-- Indexed access through a map whose function fixes the default. -/
theorem map_getD_fixed (f : Task → Task) (d : Task) (hf : f d = d) :
    ∀ (db : List Task) (i : Nat), (db.map f).getD i d = f (db.getD i d) := by
  intro db
  induction db with
  | nil => intro i; simp [hf]
  | cons a l ih =>
    intro i
    cases i with
    | zero => simp
    | succ n => simpa using ih n

/-- C10 (confirmed): each bulk operation is pointwise — pause rewrites
exactly the `active` rows to `paused`, resume exactly the `paused` rows
to `active`, restart exactly the `failed` rows to `active` (conjuncts
1-3), preserving every non-status field (conjuncts 5-7) and leaving any
row outside the source status — in particular any `completed` row —
untouched (conjuncts 8-11); delete-completed removes exactly the
`completed` rows (conjunct 4). -/
theorem bulk_ops_spec :
    (∀ (db : List Task) (i : Nat),
      (bulkPauseAll db).getD i taskDone =
        (if (db.getD i taskDone).status = TaskStatus.active
         then { db.getD i taskDone with status := TaskStatus.paused }
         else db.getD i taskDone)) ∧
    (∀ (db : List Task) (i : Nat),
      (bulkResumeAll db).getD i taskDone =
        (if (db.getD i taskDone).status = TaskStatus.paused
         then { db.getD i taskDone with status := TaskStatus.active }
         else db.getD i taskDone)) ∧
    (∀ (db : List Task) (i : Nat),
      (bulkRestartFailed db).getD i taskDone =
        (if (db.getD i taskDone).status = TaskStatus.failed
         then { db.getD i taskDone with status := TaskStatus.active }
         else db.getD i taskDone)) ∧
    (∀ (db : List Task) (t : Task),
      t ∈ bulkDeleteCompleted db ↔
        t ∈ db ∧ ¬ t.status = TaskStatus.completed) ∧
    (∀ (db : List Task) (i : Nat),
      nonStatusFields ((bulkPauseAll db).getD i taskDone) =
        nonStatusFields (db.getD i taskDone)) ∧
    (∀ (db : List Task) (i : Nat),
      nonStatusFields ((bulkResumeAll db).getD i taskDone) =
        nonStatusFields (db.getD i taskDone)) ∧
    (∀ (db : List Task) (i : Nat),
      nonStatusFields ((bulkRestartFailed db).getD i taskDone) =
        nonStatusFields (db.getD i taskDone)) ∧
    (∀ (db : List Task) (i : Nat),
      (db.getD i taskDone).status = TaskStatus.completed →
      (bulkPauseAll db).getD i taskDone = db.getD i taskDone ∧
      (bulkResumeAll db).getD i taskDone = db.getD i taskDone ∧
      (bulkRestartFailed db).getD i taskDone = db.getD i taskDone) ∧
    (∀ (db : List Task) (i : Nat),
      ¬ (db.getD i taskDone).status = TaskStatus.active →
      (bulkPauseAll db).getD i taskDone = db.getD i taskDone) ∧
    (∀ (db : List Task) (i : Nat),
      ¬ (db.getD i taskDone).status = TaskStatus.paused →
      (bulkResumeAll db).getD i taskDone = db.getD i taskDone) ∧
    (∀ (db : List Task) (i : Nat),
      ¬ (db.getD i taskDone).status = TaskStatus.failed →
      (bulkRestartFailed db).getD i taskDone = db.getD i taskDone) := by
  have hpause : ∀ (db : List Task) (i : Nat),
      (bulkPauseAll db).getD i taskDone =
        (if (db.getD i taskDone).status = TaskStatus.active
         then { db.getD i taskDone with status := TaskStatus.paused }
         else db.getD i taskDone) :=
    fun db i => map_getD_fixed _ _ (by simp [taskDone, freshTask]) db i
  have hresume : ∀ (db : List Task) (i : Nat),
      (bulkResumeAll db).getD i taskDone =
        (if (db.getD i taskDone).status = TaskStatus.paused
         then { db.getD i taskDone with status := TaskStatus.active }
         else db.getD i taskDone) :=
    fun db i => map_getD_fixed _ _ (by simp [taskDone, freshTask]) db i
  have hrestart : ∀ (db : List Task) (i : Nat),
      (bulkRestartFailed db).getD i taskDone =
        (if (db.getD i taskDone).status = TaskStatus.failed
         then { db.getD i taskDone with status := TaskStatus.active }
         else db.getD i taskDone) :=
    fun db i => map_getD_fixed _ _ (by simp [taskDone, freshTask]) db i
  refine ⟨hpause, hresume, hrestart, ?_, ?_, ?_, ?_, ?_, ?_, ?_, ?_⟩
  · intro db t
    simp [bulkDeleteCompleted, List.mem_filter]
  · intro db i
    rw [hpause db i]
    split <;> rfl
  · intro db i
    rw [hresume db i]
    split <;> rfl
  · intro db i
    rw [hrestart db i]
    split <;> rfl
  · intro db i h
    refine ⟨?_, ?_, ?_⟩
    · have hnc : ¬ (db.getD i taskDone).status = TaskStatus.active := by
        rw [h]; decide
      rw [hpause db i, if_neg hnc]
    · have hnc : ¬ (db.getD i taskDone).status = TaskStatus.paused := by
        rw [h]; decide
      rw [hresume db i, if_neg hnc]
    · have hnc : ¬ (db.getD i taskDone).status = TaskStatus.failed := by
        rw [h]; decide
      rw [hrestart db i, if_neg hnc]
  · intro db i h
    rw [hpause db i, if_neg h]
  · intro db i h
    rw [hresume db i, if_neg h]
  · intro db i h
    rw [hrestart db i, if_neg h]

/-- Witness for C10: the bulk updates leave a completed row untouched. -/
theorem bulk_ops_spec_witness :
    bulkPauseAll [taskDone] = [taskDone] ∧
    (bulkPauseAll [taskDone]).getD 0 taskDone = [taskDone].getD 0 taskDone := by
  have h := bulk_ops_spec.2.2.2.2.2.2.2.1 [taskDone] 0 (by decide)
  exact ⟨by decide, h.1⟩

end Forward

